import Mathlib

/-!
# Verification of the patient-form-app validation core

Shallow embedding of the validation logic of `Atlas1101/patient-form-app`:

* `src/lib/validators.ts` — `isValidIsraeliId`, `isValidIsraeliPhoneNumber`;
* `src/lib/schema.ts` — the zod `patientSchema` (per-field checks, error
  collection by structural path, the main-phone cross-field rule,
  `z.coerce.number` for street numbers, `.trim()` for names, `.default(false)`
  for `isMain`);
* `src/lib/api.ts` — the synchronous short-query guards of `fetchCities` and
  `fetchStreets`.

JavaScript strings are modelled as Lean `String`/`List Char`.  The regex
`\d` / `\D` classes of the source match exactly the ASCII digits `0`-`9`,
which is what `Char.isDigit` decides.
-/

set_option autoImplicit false

namespace PatientApp

/-- Numeric value of an ASCII digit character, as `Number(id[i])` produces in
the source for a digit character. -/
def digitVal (c : Char) : Nat := c.toNat - 48

/-- One step of the loop body of `isValidIsraeliId`
(`validators.ts`, lines 15-17): `step = digit * ((i % 2) + 1); step > 9 ?
step - 9 : step`. -/
def luhnStep (i d : Nat) : Nat :=
  let step := d * (i % 2 + 1)
  if step > 9 then step - 9 else step

/-- The summation loop of `isValidIsraeliId`: running index on the left,
remaining digit values on the right. -/
def checksumAux : Nat → List Nat → Nat
  | _, [] => 0
  | i, d :: ds => luhnStep i d + checksumAux (i + 1) ds

/-- Weighted digit sum of `isValidIsraeliId` over the digit values of the
input (the source loops `i = 0 .. 8`; since the guard has ensured exactly 9
digits, folding over the whole list is the same loop). -/
def checksum (ds : List Nat) : Nat := checksumAux 0 ds

/-- `isValidIsraeliId` from `validators.ts` (lines 8-20).  The JS guard
`!id || id.length !== 9 || !/^\d{9}$/.test(id)` rejects unless the string is
exactly 9 ASCII digits; the JS emptiness and UTF-16-length tests are
subsumed: any string whose 9 code points are all ASCII digits has JS length 9
and matches the regex, and every other string is rejected by both versions. -/
def isValidIsraeliId (id : String) : Bool :=
  if id.data.length = 9 ∧ id.data.all Char.isDigit then
    checksum (id.data.map digitVal) % 10 = 0
  else
    false

/-- The digit stripping `phone.replace(/\D/g, "")` of
`isValidIsraeliPhoneNumber`: keep exactly the ASCII digit characters. -/
def cleanPhone (phone : String) : List Char := phone.data.filter Char.isDigit

/-- Characters `1`-`9`, the regex class `[1-9]`. -/
def isDigit19 (c : Char) : Bool := '1' ≤ c && c ≤ '9'

/-- The anchored regex `/^(0(2|3|4|5[0-9]|7[1-9]|8|9))\d{7}$/` of
`isValidIsraeliPhoneNumber` (`validators.ts`, line 34), written out as a
function on the character list: a leading `0`, then one of the prefix
alternatives, then exactly 7 digits, consuming the whole string. -/
def matchesIsraelPhone : List Char → Bool
  | c0 :: p :: rest =>
    c0 == '0' &&
    (if p = '2' ∨ p = '3' ∨ p = '4' ∨ p = '8' ∨ p = '9' then
      rest.length = 7 && rest.all Char.isDigit
    else if p = '5' then
      match rest with
      | d :: rest2 => d.isDigit && (rest2.length = 7 && rest2.all Char.isDigit)
      | [] => false
    else if p = '7' then
      match rest with
      | d :: rest2 => isDigit19 d && (rest2.length = 7 && rest2.all Char.isDigit)
      | [] => false
    else false)
  | _ => false

/-- `isValidIsraeliPhoneNumber` from `validators.ts` (lines 22-37): the JS
guard `!phone` returns false on the empty string, otherwise the regex is
tested against the cleaned (digits-only) string. -/
def isValidIsraeliPhoneNumber (phone : String) : Bool :=
  if phone.data.isEmpty then false
  else matchesIsraelPhone (cleanPhone phone)

/-! ## The record schema (`src/lib/schema.ts`)

The zod `patientSchema` is embedded as a pure validation function.  The raw
input is typed where the form already guarantees the shape (enums are the
inductive types below, so the `z.enum` membership checks hold by
construction) and raw where zod coerces or defaults: names are untrimmed
strings, `isMain` may be absent (`z.boolean().default(false)`), and
`streetNumber` is a JS number or a string (`z.coerce.number()`).

Zod collects issues instead of throwing: every failing check appends an
issue carrying a structural path and a message, and `safeParse` succeeds
exactly when no issue was produced.  In zod v3 a failed string check marks
the result dirty but keeps parsing, so a later `.refine` still runs — hence
the two checks of a chain such as `.length(9).refine(...)` contribute
independently.  The only aborting branch reachable here is a `NaN` street
number; it carries no value, and since its issue makes the overall issue
list non-empty in any case, modelling it with a dummy value changes nothing
observable. -/

/-- A segment of a zod issue path: an object key or an array index. -/
inductive PathSeg where
  | key (name : String)
  | idx (i : Nat)
deriving DecidableEq, Repr

/-- A zod issue: structural path plus human-readable message. -/
structure Issue where
  path : List PathSeg
  message : String
deriving DecidableEq, Repr

/-- `phoneTypeEnum = z.enum(["Home", "Mobile", "Work", "Other"])`. -/
inductive PhoneType where
  | Home | Mobile | Work | Other
deriving DecidableEq, Repr

/-- `addressTypeEnum = z.enum(["Home", "Work", "Other"])`. -/
inductive AddressType where
  | Home | Work | Other
deriving DecidableEq, Repr

/-- `hmoEnum = z.enum(["Clalit", "Maccabi", "Mehuedet", "Leumit"])`. -/
inductive Hmo where
  | Clalit | Maccabi | Mehuedet | Leumit
deriving DecidableEq, Repr

/-- An exact fraction `num / den`, the model of a finite JS number here.
Every value this embedding constructs has a positive denominator (`1` or a
power of 10), so the integrality, positivity and lower-bound tests read off
`num` and `den` below coincide with the numeric ones. -/
structure Frac where
  num : Int
  den : Nat
deriving DecidableEq, Repr

/-- A JS number for the purposes of `z.coerce.number()`: either a finite
value or `NaN`. -/
inductive JsNumber where
  | val (v : Frac)
  | nan
deriving DecidableEq, Repr

/-- Raw `streetNumber` input: already a number, or a string that
`z.coerce.number()` passes through JS `Number(...)`. -/
inductive RawNumber where
  | num (v : Frac)
  | str (s : String)
deriving DecidableEq, Repr

/-- Whitespace as JS `String.prototype.trim` removes it (restricted to the
ASCII whitespace that `Char.isWhitespace` decides; the Unicode extras do not
affect any claim). -/
def isWs (c : Char) : Bool := c.isWhitespace

/-- Drop the trailing run of characters satisfying `p`. -/
def dropWhileEnd (p : Char → Bool) : List Char → List Char
  | [] => []
  | c :: cs =>
    let r := dropWhileEnd p cs
    if r.isEmpty && p c then [] else c :: r

/-- JS `String.prototype.trim` on a character list: strip leading and
trailing whitespace. -/
def trimChars (cs : List Char) : List Char :=
  dropWhileEnd isWs (cs.dropWhile isWs)

/-- JS `String.prototype.trim`, as the zod `.trim()` transform applies it. -/
def trimStr (s : String) : String := ⟨trimChars s.data⟩

/-- Value of the digit list `ds` read as a decimal numeral. -/
def digitsToNat (ds : List Char) : Nat :=
  ds.foldl (fun a c => a * 10 + digitVal c) 0

/-- JS `Number(s)` as `z.coerce.number()` invokes it, on the fragment of
number syntax relevant here: surrounding whitespace is trimmed, the empty
string is `0`, an optional sign followed by decimal digits with an optional
fractional part is the evident rational, and anything else (including the
exponent/hex/Infinity forms no caller produces) is `NaN`. -/
def jsNumber (s : String) : JsNumber :=
  match trimChars s.data with
  | [] => .val ⟨0, 1⟩
  | t =>
    let sb : Int × List Char :=
      match t with
      | '-' :: r => (-1, r)
      | '+' :: r => (1, r)
      | r => (1, r)
    let ip := sb.2.takeWhile Char.isDigit
    let rest := sb.2.dropWhile Char.isDigit
    match rest with
    | [] => if ip.isEmpty then .nan else .val ⟨sb.1 * digitsToNat ip, 1⟩
    | '.' :: fr =>
      if fr.all Char.isDigit && !(ip.isEmpty && fr.isEmpty) then
        .val ⟨sb.1 * (digitsToNat ip * 10 ^ fr.length + digitsToNat fr), 10 ^ fr.length⟩
      else .nan
    | _ => .nan

/-- `z.coerce.number()` applied to the raw input: a number passes through
`Number(...)` unchanged, a string is parsed. -/
def coerceNumber : RawNumber → JsNumber
  | .num v => .val v
  | .str s => jsNumber s

/-- A raw phone entry as `phoneNumberSchema` receives it. -/
structure RawPhone where
  type : PhoneType
  number : String
  isMain : Option Bool
deriving DecidableEq, Repr

/-- A parsed phone entry (`PhoneNumberData`). -/
structure PhoneEntry where
  type : PhoneType
  number : String
  isMain : Bool
deriving DecidableEq, Repr

/-- A raw address entry as `addressSchema` receives it. -/
structure RawAddress where
  cityCode : String
  cityName : String
  streetCode : String
  streetName : String
  streetNumber : RawNumber
  addressType : AddressType
  comments : Option String
deriving DecidableEq, Repr

/-- A parsed address entry (`AddressData`). -/
structure AddressEntry where
  cityCode : String
  cityName : String
  streetCode : String
  streetName : String
  streetNumber : Frac
  addressType : AddressType
  comments : Option String
deriving DecidableEq, Repr

/-- A raw patient record as `patientSchema` receives it. -/
structure RawPatient where
  id : String
  firstName : String
  lastName : String
  phoneNumbers : List RawPhone
  hmo : Hmo
  addresses : List RawAddress
deriving DecidableEq, Repr

/-- A parsed patient record (`PatientFormData`). -/
structure Patient where
  id : String
  firstName : String
  lastName : String
  phoneNumbers : List PhoneEntry
  hmo : Hmo
  addresses : List AddressEntry
deriving DecidableEq, Repr

/-- The `id` field checks of `patientSchema`:
`z.string().length(9, "ID must be exactly 9 digits").refine(isValidIsraeliId,
"Invalid Israeli ID number")`.  A failed `.length` check marks the parse
dirty but does not abort, so the refinement still runs and the two issues
accumulate independently. -/
def validateId (s : String) : List Issue :=
  (if s.length = 9 then [] else [⟨[PathSeg.key "id"], "ID must be exactly 9 digits"⟩]) ++
  (if isValidIsraeliId s then [] else [⟨[PathSeg.key "id"], "Invalid Israeli ID number"⟩])

/-- A name field: `z.string().trim().min(1, msg)`.  The `.trim()` transform
rewrites the running value, so the `.min(1)` check sees — and the output
keeps — the trimmed string. -/
def validateName (base : List PathSeg) (msg : String) (s : String) :
    List Issue × String :=
  ((if (trimStr s).data.isEmpty then [⟨base, msg⟩] else []), trimStr s)

/-- A required plain string field: `z.string().min(1, msg)`. -/
def requiredString (path : List PathSeg) (msg : String) (s : String) : List Issue :=
  if s.data.isEmpty then [⟨path, msg⟩] else []

/-- `phoneNumberSchema` on one entry: the `number` field is
`z.string().min(1, ...).refine(isValidIsraeliPhoneNumber, ...)` (again both
checks contribute), `type` is enum-typed by construction, and `isMain` is
`z.boolean().default(false)`. -/
def validatePhoneEntry (base : List PathSeg) (r : RawPhone) :
    List Issue × PhoneEntry :=
  ((if r.number.data.isEmpty then
      [⟨base ++ [PathSeg.key "number"], "Phone number is required"⟩] else []) ++
   (if isValidIsraeliPhoneNumber r.number then []
    else [⟨base ++ [PathSeg.key "number"], "Invalid Israeli phone number format"⟩]),
   ⟨r.type, r.number, r.isMain.getD false⟩)

/-- The `phones.forEach((phone, index) => ...)` branch of the `superRefine`:
one issue at path `[index, "isMain"]` for every entry marked main, in order,
starting from index `i`. -/
def mainMarkIssuesAux : Nat → List PhoneEntry → List Issue
  | _, [] => []
  | i, p :: ps =>
    (if p.isMain then
      [⟨[PathSeg.idx i, PathSeg.key "isMain"], "Only one phone can be main."⟩]
     else []) ++ mainMarkIssuesAux (i + 1) ps

/-- The main-phone `superRefine` of `patientSchema.phoneNumbers`
(`schema.ts`, lines 61-82), with paths relative to the array root:
no main entry yields one issue at the root, more than one main entry yields
one issue per main-marked entry, exactly one main entry yields nothing. -/
def mainPhoneIssues (phones : List PhoneEntry) : List Issue :=
  let mainPhones := phones.filter (fun p => p.isMain)
  if mainPhones.length = 0 then
    [⟨[], "One phone number must be marked as main."⟩]
  else if mainPhones.length > 1 then
    mainMarkIssuesAux 0 phones
  else []

/-- Element-wise parse of a zod array: each element is validated at path
`base ++ [idx i]`, issues are concatenated in order and parsed values kept. -/
def validateEntriesAux {α β : Type} (f : List PathSeg → α → List Issue × β)
    (base : List PathSeg) : Nat → List α → List Issue × List β
  | _, [] => ([], [])
  | i, x :: xs =>
    let r := f (base ++ [PathSeg.idx i]) x
    let rs := validateEntriesAux f base (i + 1) xs
    (r.1 ++ rs.1, r.2 :: rs.2)

/-- Path of the `phoneNumbers` field. -/
def phonesBase : List PathSeg := [PathSeg.key "phoneNumbers"]

/-- Path of the `addresses` field. -/
def addressesBase : List PathSeg := [PathSeg.key "addresses"]

/-- `patientSchema.phoneNumbers`:
`z.array(phoneNumberSchema).min(1, ...).superRefine(...)`.  zod emits the
min-length issue first, then the element issues, then (the inner parse being
at worst dirty, never aborted, for these inputs) the `superRefine` issues on
the parsed entries, with the array path prepended. -/
def validatePhoneNumbers (phones : List RawPhone) : List Issue × List PhoneEntry :=
  let minIssues :=
    if phones.length < 1 then
      [⟨phonesBase, "At least one phone number is required"⟩]
    else []
  let elems := validateEntriesAux validatePhoneEntry phonesBase 0 phones
  let refineIssues :=
    (mainPhoneIssues elems.2).map (fun iss => ⟨phonesBase ++ iss.path, iss.message⟩)
  (minIssues ++ elems.1 ++ refineIssues, elems.2)

/-- The checks of the `streetNumber` field applied to the coerced number:
`.int(...)`, `.positive(...)`, `.min(1, ...)` all run and accumulate; a
`NaN` is the aborting `invalid_type_error` (the dummy value `0` returned
with it is never used, the non-empty issue list already forces overall
failure). -/
def numberChecks (path : List PathSeg) : JsNumber → List Issue × Frac
  | .nan => ([⟨path, "Street number must be a number"⟩], ⟨0, 1⟩)
  | .val v =>
    ((if v.num % (v.den : Int) = 0 then []
      else [⟨path, "Street number must be a whole number"⟩]) ++
     (if 0 < v.num then [] else [⟨path, "Street number must be positive"⟩]) ++
     (if (v.den : Int) ≤ v.num then [] else [⟨path, "Street number is required"⟩]), v)

/-- The `streetNumber` field:
`z.coerce.number({invalid_type_error: ...}).int(...).positive(...).min(1, ...)`. -/
def validateStreetNumber (path : List PathSeg) (raw : RawNumber) :
    List Issue × Frac :=
  numberChecks path (coerceNumber raw)

/-- The optional bounded `comments` field:
`z.string().max(500, "Comments too long").optional()`. -/
def commentsIssues (path : List PathSeg) : Option String → List Issue
  | none => []
  | some c =>
    if c.length ≤ 500 then []
    else [⟨path, "Comments too long"⟩]

/-- `addressSchema` on one entry: four required strings, the coerced street
number, the enum-typed `addressType`, and the optional bounded comments. -/
def validateAddressEntry (base : List PathSeg) (r : RawAddress) :
    List Issue × AddressEntry :=
  (requiredString (base ++ [PathSeg.key "cityCode"]) "City selection is required" r.cityCode ++
   requiredString (base ++ [PathSeg.key "cityName"]) "City name is required" r.cityName ++
   requiredString (base ++ [PathSeg.key "streetCode"]) "Street selection is required" r.streetCode ++
   requiredString (base ++ [PathSeg.key "streetName"]) "Street name is required" r.streetName ++
   (validateStreetNumber (base ++ [PathSeg.key "streetNumber"]) r.streetNumber).1 ++
   commentsIssues (base ++ [PathSeg.key "comments"]) r.comments,
   ⟨r.cityCode, r.cityName, r.streetCode, r.streetName,
    (validateStreetNumber (base ++ [PathSeg.key "streetNumber"]) r.streetNumber).2,
    r.addressType, r.comments⟩)

/-- `patientSchema.addresses`: `z.array(addressSchema).min(1, ...)`. -/
def validateAddresses (addrs : List RawAddress) : List Issue × List AddressEntry :=
  let minIssues :=
    if addrs.length < 1 then [⟨addressesBase, "At least one address is required"⟩]
    else []
  let elems := validateEntriesAux validateAddressEntry addressesBase 0 addrs
  (minIssues ++ elems.1, elems.2)

/-- `patientSchema.safeParse`: the fields are checked in declaration order
(`id`, `firstName`, `lastName`, `phoneNumbers`, `hmo`, `addresses`; the
enum-typed `hmo` cannot fail), every issue is collected, and the parse
succeeds — producing the normalized record — exactly when no issue was
produced.  Validation is a total function into data: no exception escapes. -/
def validatePatient (r : RawPatient) : List Issue × Option Patient :=
  let idIssues := validateId r.id
  let fn := validateName [PathSeg.key "firstName"] "First name is required" r.firstName
  let ln := validateName [PathSeg.key "lastName"] "Last name is required" r.lastName
  let ph := validatePhoneNumbers r.phoneNumbers
  let ad := validateAddresses r.addresses
  let issues := idIssues ++ fn.1 ++ ln.1 ++ ph.1 ++ ad.1
  (issues, if issues.isEmpty then some ⟨r.id, fn.2, ln.2, ph.2, r.hmo, ad.2⟩ else none)

/-- Reinjection of a parsed phone entry as raw input (what resubmitting the
normalized record means): `isMain` is present. -/
def rawOfPhone (p : PhoneEntry) : RawPhone := ⟨p.type, p.number, some p.isMain⟩

/-- Reinjection of a parsed address entry as raw input: the street number is
already a JS number. -/
def rawOfAddress (a : AddressEntry) : RawAddress :=
  ⟨a.cityCode, a.cityName, a.streetCode, a.streetName, .num a.streetNumber,
   a.addressType, a.comments⟩

/-- Reinjection of a parsed patient record as raw input. -/
def rawOfPatient (p : Patient) : RawPatient :=
  ⟨p.id, p.firstName, p.lastName, p.phoneNumbers.map rawOfPhone, p.hmo,
   p.addresses.map rawOfAddress⟩

/-! ## The lookup short-query guards (`src/lib/api.ts`)

`fetchCities` and `fetchStreets` are `async`, but the guard under
verification runs synchronously before the first `await`: the query is
trimmed and, when it is empty or shorter than 2 characters, the function
returns `[]` at once — no request is issued and no pending state is
entered.  The model captures exactly this synchronous decision. -/

/-- Outcome of the synchronous part of `fetchCities` (`api.ts`, lines
83-88): either the immediate empty result of the short-query guard, or a
network request carrying the trimmed query. -/
inductive CitiesStep where
  | emptyResult
  | request (q : String)
deriving DecidableEq, Repr

/-- Outcome of the synchronous part of `fetchStreets` (`api.ts`, lines
154-162): the short-query guard fires first; only then an empty city code
throws; otherwise the request is issued. -/
inductive StreetsStep where
  | emptyResult
  | missingCityCode
  | request (q : String) (cityCode : String)
deriving DecidableEq, Repr

/-- The synchronous decision of `fetchCities`:
`const trimmedQuery = query.trim(); if (!trimmedQuery || trimmedQuery.length < 2) return [];`. -/
def fetchCitiesStep (query : String) : CitiesStep :=
  let t := trimStr query
  if t.data.isEmpty || t.length < 2 then .emptyResult else .request t

/-- The synchronous decision of `fetchStreets`: same guard, then
`if (!cityCode) throw ...`. -/
def fetchStreetsStep (query cityCode : String) : StreetsStep :=
  let t := trimStr query
  if t.data.isEmpty || t.length < 2 then .emptyResult
  else if cityCode.data.isEmpty then .missingCityCode
  else .request t cityCode

/-! ## Spec-side restatements

These definitions follow the wording of the specification, to be compared
with the definitions above that were translated from the source. -/

/-- The checksum step as the spec words it: multiply the digit by 1 at an
even 0-indexed position and by 2 at an odd one; subtract 9 from a product
exceeding 9. -/
def specAdjust (i d : Nat) : Nat :=
  let p := if i % 2 = 0 then d * 1 else d * 2
  if p > 9 then p - 9 else p

/-- The spec's checksum: the nine adjusted values summed. -/
def specIdSum (id : String) : Nat :=
  ((List.range 9).map (fun i => specAdjust i (digitVal (id.data.getD i '0')))).sum

/-- The spec's acceptance condition for an identifier: exactly 9 ASCII
digits and the weighted checksum divisible by 10. -/
def specIdValid (id : String) : Prop :=
  id.data.length = 9 ∧ (∀ c ∈ id.data, c.isDigit = true) ∧ specIdSum id % 10 = 0

/-- Exactly 7 ASCII digits, the tail the spec requires after the prefix. -/
def specTail7 (ds : List Char) : Prop :=
  ds.length = 7 ∧ ∀ c ∈ ds, c.isDigit = true

/-- The spec's acceptance condition for a phone number: the cleaned string
starts with `0`, continues with prefix `2`, `3`, `4`, `8`, `9`, or `5`
followed by any digit, or `7` followed by a digit 1-9, and is followed by
exactly 7 more digits. -/
def specPhoneAccepts (phone : String) : Prop :=
  ∃ p rest, cleanPhone phone = '0' :: p :: rest ∧
    ((p ∈ ['2', '3', '4', '8', '9'] ∧ specTail7 rest) ∨
     (p = '5' ∧ ∃ d rest2, rest = d :: rest2 ∧ d.isDigit = true ∧ specTail7 rest2) ∨
     (p = '7' ∧ ∃ d rest2, rest = d :: rest2 ∧ isDigit19 d = true ∧ specTail7 rest2))

/-! ## Concrete records used to instantiate the theorems -/

/-- Two phone entries, neither marked main. -/
def demoNoMain : List PhoneEntry :=
  [⟨.Mobile, "0501234567", false⟩, ⟨.Home, "021234567", false⟩]

/-- Two phone entries, both marked main. -/
def demoTwoMain : List PhoneEntry :=
  [⟨.Mobile, "0501234567", true⟩, ⟨.Home, "021234567", true⟩]

/-- A fully valid raw record (untrimmed first name, street number as a
string, absent `isMain` default exercised on no entry). -/
def demoRaw : RawPatient :=
  ⟨"000000018", " Ada ", "Lovelace",
   [⟨.Mobile, "050-123-4567", some true⟩], .Clalit,
   [⟨"5000", "Tel Aviv", "100", "Main", .str "12", .Home, none⟩]⟩

/-- The normalized record `demoRaw` parses to. -/
def demoPatient : Patient :=
  ⟨"000000018", "Ada", "Lovelace",
   [⟨.Mobile, "050-123-4567", true⟩], .Clalit,
   [⟨"5000", "Tel Aviv", "100", "Main", ⟨12, 1⟩, .Home, none⟩]⟩

/-- `demoRaw` with the phone list emptied; every other field valid. -/
def demoNoPhones : RawPatient :=
  ⟨"000000018", " Ada ", "Lovelace", [], .Clalit,
   [⟨"5000", "Tel Aviv", "100", "Main", .str "12", .Home, none⟩]⟩

/-- `demoRaw` with the address list emptied; every other field valid. -/
def demoNoAddresses : RawPatient :=
  ⟨"000000018", " Ada ", "Lovelace",
   [⟨.Mobile, "050-123-4567", some true⟩], .Clalit, []⟩

/-- A record with three independently invalid fields: a checksum-failing id,
an invalid phone number at index 1, and a non-numeric street number at
address index 0. -/
def demoBad : RawPatient :=
  ⟨"123456789", " Ada ", "Lovelace",
   [⟨.Mobile, "050-123-4567", some true⟩, ⟨.Home, "12345", none⟩], .Clalit,
   [⟨"5000", "Tel Aviv", "100", "Main", .str "abc", .Home, none⟩]⟩

/-! ## Helper lemmas -/

theorem luhnStep_eq_specAdjust (i d : Nat) : luhnStep i d = specAdjust i d := by
  rcases Nat.mod_two_eq_zero_or_one i with h | h <;>
    simp [luhnStep, specAdjust, h]

theorem list_length_nine {α : Type} (l : List α) (hl : l.length = 9) :
    ∃ a b c d e f g h i, l = [a, b, c, d, e, f, g, h, i] := by
  rcases l with _ | ⟨a, _ | ⟨b, _ | ⟨c, _ | ⟨d, _ | ⟨e, _ | ⟨f, _ | ⟨g, _ |
    ⟨h, _ | ⟨i, _ | ⟨j, t⟩⟩⟩⟩⟩⟩⟩⟩⟩⟩
  · simp at hl
  · simp at hl
  · simp at hl
  · simp at hl
  · simp at hl
  · simp at hl
  · simp at hl
  · simp at hl
  · simp at hl
  · exact ⟨a, b, c, d, e, f, g, h, i, rfl⟩
  · simp at hl

theorem checksum_eq_specIdSum (id : String) (h9 : id.data.length = 9) :
    checksum (id.data.map digitVal) = specIdSum id := by
  obtain ⟨a, b, c, d, e, f, g, h, i, hl⟩ := list_length_nine id.data h9
  simp only [specIdSum, hl, checksum, checksumAux, luhnStep_eq_specAdjust]
  simp [List.range_succ]

theorem isValidIsraeliId_iff (id : String) :
    isValidIsraeliId id = true ↔
      id.data.length = 9 ∧ id.data.all Char.isDigit = true ∧
        checksum (id.data.map digitVal) % 10 = 0 := by
  unfold isValidIsraeliId
  split
  next hcond => simp [hcond.1, hcond.2]
  next hcond =>
    simp only [Bool.false_eq_true, false_iff]
    rintro ⟨h1, h2, -⟩
    exact hcond ⟨h1, h2⟩

/-! ## Claims -/

/-- C10: the all-zero identifier passes the checksum — `isValidIsraeliId
"000000000"` is `true`, its weighted digit sum being `0`; the validator
imposes no non-triviality requirement beyond shape and checksum. -/
theorem claim_C10 :
    isValidIsraeliId "000000000" = true ∧
    checksum (String.data "000000000" |>.map digitVal) = 0 := by
  decide

/-- C1: `isValidIsraeliId` accepts exactly the strings of 9 ASCII digits
whose weighted checksum (digit times 1 at even 0-indexed positions, times 2
at odd ones, 9 subtracted from products exceeding 9, all summed) is
divisible by 10; every other input yields `false` (the function is total,
nothing is thrown); and `"000000018"` is accepted while `"123456789"` is
rejected. -/
theorem claim_C1 :
    (∀ id : String, isValidIsraeliId id = true ↔ specIdValid id) ∧
    isValidIsraeliId "000000018" = true ∧
    isValidIsraeliId "123456789" = false := by
  refine ⟨fun id => ?_, by decide, by decide⟩
  rw [isValidIsraeliId_iff]
  constructor
  · rintro ⟨h1, h2, h3⟩
    exact ⟨h1, List.all_eq_true.mp h2, by rw [← checksum_eq_specIdSum id h1]; exact h3⟩
  · rintro ⟨h1, h2, h3⟩
    exact ⟨h1, List.all_eq_true.mpr h2, by rw [checksum_eq_specIdSum id h1]; exact h3⟩

/-- C1, instantiated: the accepted example satisfies the spec-side
predicate. -/
theorem claim_C1_witness : specIdValid "000000018" :=
  (claim_C1.1 "000000018").mp (by decide)

theorem matchesIsraelPhone_iff (cs : List Char) :
    matchesIsraelPhone cs = true ↔
      ∃ p rest, cs = '0' :: p :: rest ∧
        ((p ∈ ['2', '3', '4', '8', '9'] ∧ specTail7 rest) ∨
         (p = '5' ∧ ∃ d rest2, rest = d :: rest2 ∧ d.isDigit = true ∧ specTail7 rest2) ∨
         (p = '7' ∧ ∃ d rest2, rest = d :: rest2 ∧ isDigit19 d = true ∧ specTail7 rest2)) := by
  cases cs with
  | nil => simp [matchesIsraelPhone]
  | cons c0 cs1 =>
    cases cs1 with
    | nil => simp [matchesIsraelPhone]
    | cons p rest =>
      simp only [matchesIsraelPhone, Bool.and_eq_true, beq_iff_eq]
      constructor
      · rintro ⟨rfl, hbody⟩
        refine ⟨p, rest, rfl, ?_⟩
        by_cases hA : p = '2' ∨ p = '3' ∨ p = '4' ∨ p = '8' ∨ p = '9'
        · rw [if_pos hA] at hbody
          simp only [Bool.and_eq_true, decide_eq_true_eq, List.all_eq_true] at hbody
          exact Or.inl ⟨by simpa using hA, hbody.1, hbody.2⟩
        · rw [if_neg hA] at hbody
          by_cases h5 : p = '5'
          · rw [if_pos h5] at hbody
            cases rest with
            | nil => cases hbody
            | cons d rest2 =>
              simp only [Bool.and_eq_true, decide_eq_true_eq, List.all_eq_true] at hbody
              exact Or.inr (Or.inl ⟨h5, d, rest2, rfl, hbody.1, hbody.2.1, hbody.2.2⟩)
          · rw [if_neg h5] at hbody
            by_cases h7 : p = '7'
            · rw [if_pos h7] at hbody
              cases rest with
              | nil => cases hbody
              | cons d rest2 =>
                simp only [Bool.and_eq_true, decide_eq_true_eq, List.all_eq_true] at hbody
                exact Or.inr (Or.inr ⟨h7, d, rest2, rfl, hbody.1, hbody.2.1, hbody.2.2⟩)
            · rw [if_neg h7] at hbody
              cases hbody
      · rintro ⟨q, rest1, heq, hcase⟩
        obtain ⟨rfl, rfl, rfl⟩ : c0 = '0' ∧ p = q ∧ rest = rest1 := by
          injection heq with h1 h2
          injection h2 with h2 h3
          exact ⟨h1, h2, h3⟩
        refine ⟨rfl, ?_⟩
        rcases hcase with ⟨hmem, hlen, hdig⟩ |
          ⟨rfl, d, rest2, rfl, hd, hlen, hdig⟩ |
          ⟨rfl, d, rest2, rfl, hd, hlen, hdig⟩
        · rw [if_pos (by simpa using hmem)]
          simp [hlen, List.all_eq_true.mpr hdig]
        · rw [if_neg (by decide), if_pos rfl]
          simp [hd, hlen, List.all_eq_true.mpr hdig]
        · rw [if_neg (by decide), if_neg (by decide), if_pos rfl]
          simp [hd, hlen, List.all_eq_true.mpr hdig]

/-- C2: `isValidIsraeliPhoneNumber` strips every non-digit character and
accepts exactly the cleaned strings consisting of a leading `0`, a prefix
`2`/`3`/`4`/`8`/`9`, or `5` followed by any digit, or `7` followed by a
digit 1-9, and exactly 7 further digits; the empty input is rejected, and
the four spec examples behave as stated. -/
theorem claim_C2 :
    (∀ phone : String, isValidIsraeliPhoneNumber phone = true ↔ specPhoneAccepts phone) ∧
    isValidIsraeliPhoneNumber "050-123-4567" = true ∧
    isValidIsraeliPhoneNumber "02-1234567" = true ∧
    isValidIsraeliPhoneNumber "1234567" = false ∧
    isValidIsraeliPhoneNumber "" = false := by
  refine ⟨fun phone => ?_, by decide, by decide, by decide, by decide⟩
  unfold isValidIsraeliPhoneNumber
  split
  next hemp =>
    simp only [Bool.false_eq_true, false_iff]
    rintro ⟨p, rest, hx, -⟩
    rcases hd : phone.data with - | ⟨c, cs⟩
    · rw [cleanPhone, hd] at hx
      cases hx
    · rw [hd] at hemp
      cases hemp
  next hemp =>
    exact matchesIsraelPhone_iff (cleanPhone phone)

/-- C2, instantiated: the accepted landline example satisfies the spec-side
shape predicate. -/
theorem claim_C2_witness : specPhoneAccepts "02-1234567" :=
  (claim_C2.1 "02-1234567").mp (by decide)

/-- C9: every accepted phone number cleans to exactly 9 digits when its
second digit is a landline prefix digit (2, 3, 4, 8, 9) and to exactly 10
digits when its second digit is 5 or 7; the second digit is always one of
these, and no other cleaned length is accepted. -/
theorem claim_C9 (phone : String) (h : isValidIsraeliPhoneNumber phone = true) :
    ((cleanPhone phone).getD 1 ' ' ∈ ['2', '3', '4', '8', '9'] ∨
      (cleanPhone phone).getD 1 ' ' = '5' ∨ (cleanPhone phone).getD 1 ' ' = '7') ∧
    ((cleanPhone phone).getD 1 ' ' ∈ ['2', '3', '4', '8', '9'] →
      (cleanPhone phone).length = 9) ∧
    (((cleanPhone phone).getD 1 ' ' = '5' ∨ (cleanPhone phone).getD 1 ' ' = '7') →
      (cleanPhone phone).length = 10) ∧
    ((cleanPhone phone).length = 9 ∨ (cleanPhone phone).length = 10) := by
  have h' : matchesIsraelPhone (cleanPhone phone) = true := by
    unfold isValidIsraeliPhoneNumber at h
    split at h
    · cases h
    · exact h
  rw [matchesIsraelPhone_iff] at h'
  obtain ⟨p, rest, hx, hcase⟩ := h'
  rw [hx]
  simp only [List.getD_cons_succ, List.getD_cons_zero, List.length_cons]
  rcases hcase with ⟨hmem, hlen, -⟩ |
    ⟨rfl, d, rest2, rfl, -, hlen, -⟩ |
    ⟨rfl, d, rest2, rfl, -, hlen, -⟩
  · refine ⟨Or.inl hmem, fun _ => by omega, fun hc => ?_, Or.inl (by omega)⟩
    rcases hc with rfl | rfl
    · exact absurd hmem (by decide)
    · exact absurd hmem (by decide)
  · refine ⟨Or.inr (Or.inl rfl), fun hm => absurd hm (by decide), fun _ => ?_, Or.inr ?_⟩
    · simp [hlen]
    · simp [hlen]
  · refine ⟨Or.inr (Or.inr rfl), fun hm => absurd hm (by decide), fun _ => ?_, Or.inr ?_⟩
    · simp [hlen]
    · simp [hlen]

/-- C9, instantiated: a mobile number cleans to 10 digits, a landline
number to 9. -/
theorem claim_C9_witness :
    (cleanPhone "050-123-4567").length = 10 ∧ (cleanPhone "02-1234567").length = 9 :=
  ⟨(claim_C9 "050-123-4567" (by decide)).2.2.1 (Or.inl (by decide)),
   (claim_C9 "02-1234567" (by decide)).2.1 (by decide)⟩

theorem dropWhile_head_not {p : Char → Bool} (l : List Char) (c : Char)
    (cs : List Char) (h : l.dropWhile p = c :: cs) : p c = false := by
  induction l with
  | nil => cases h
  | cons a l ih =>
    rw [List.dropWhile_cons] at h
    by_cases ha : p a = true
    · rw [if_pos ha] at h
      exact ih h
    · rw [if_neg ha] at h
      injection h with h1 h2
      rw [← h1]
      exact Bool.not_eq_true _ |>.mp ha

theorem dropWhile_idem (p : Char → Bool) (l : List Char) :
    (l.dropWhile p).dropWhile p = l.dropWhile p := by
  rcases h : l.dropWhile p with - | ⟨c, cs⟩
  · rfl
  · rw [List.dropWhile_cons, if_neg]
    rw [dropWhile_head_not l c cs h]
    simp

theorem length_dropWhileEnd_le (p : Char → Bool) (l : List Char) :
    (dropWhileEnd p l).length ≤ l.length := by
  induction l with
  | nil => exact Nat.le_refl 0
  | cons c cs ih =>
    rw [dropWhileEnd]
    split
    · exact Nat.zero_le _
    · simpa using Nat.succ_le_succ ih

theorem dropWhileEnd_idem (p : Char → Bool) (l : List Char) :
    dropWhileEnd p (dropWhileEnd p l) = dropWhileEnd p l := by
  induction l with
  | nil => rfl
  | cons c cs ih =>
    rw [dropWhileEnd]
    split
    · rfl
    next hcond =>
      rw [dropWhileEnd, ih]
      simp only [if_neg hcond]

theorem dropWhileEnd_cons_shape (p : Char → Bool) (l : List Char) (c : Char)
    (r : List Char) (h : dropWhileEnd p l = c :: r) : ∃ t, l = c :: t := by
  cases l with
  | nil => cases h
  | cons a t =>
    rw [dropWhileEnd] at h
    split at h
    · cases h
    · injection h with h1 h2
      exact ⟨t, by rw [h1]⟩

theorem trimChars_idem (cs : List Char) : trimChars (trimChars cs) = trimChars cs := by
  unfold trimChars
  have hdw : (dropWhileEnd isWs (cs.dropWhile isWs)).dropWhile isWs
      = dropWhileEnd isWs (cs.dropWhile isWs) := by
    rcases h : dropWhileEnd isWs (cs.dropWhile isWs) with - | ⟨c, r⟩
    · rfl
    · obtain ⟨t, ht⟩ := dropWhileEnd_cons_shape isWs _ c r h
      rw [List.dropWhile_cons, if_neg]
      rw [dropWhile_head_not cs c t ht]
      simp
  rw [hdw, dropWhileEnd_idem]

theorem length_dropWhile_le (p : Char → Bool) (l : List Char) :
    (l.dropWhile p).length ≤ l.length := by
  induction l with
  | nil => exact Nat.le_refl 0
  | cons c cs ih =>
    rw [List.dropWhile_cons]
    split
    · exact Nat.le_trans ih (Nat.le_succ _)
    · exact Nat.le_refl _

theorem length_trimChars_le (cs : List Char) : (trimChars cs).length ≤ cs.length :=
  Nat.le_trans (length_dropWhileEnd_le isWs _) (length_dropWhile_le isWs cs)

/-- C8: a lookup query of length 0 or 1 makes both `fetchCities` and
`fetchStreets` take the synchronous short-query branch — the empty list is
returned immediately, no network request is issued and no pending state is
entered (for `fetchStreets`, regardless of the city code). -/
theorem claim_C8 (q : String) (hq : q.length ≤ 1) :
    fetchCitiesStep q = CitiesStep.emptyResult ∧
    ∀ cityCode : String, fetchStreetsStep q cityCode = StreetsStep.emptyResult := by
  have hlen : (trimStr q).length < 2 := by
    have h1 : (trimStr q).length = (trimChars q.data).length := rfl
    have h2 : q.length = q.data.length := rfl
    have := length_trimChars_le q.data
    omega
  refine ⟨?_, fun cityCode => ?_⟩
  · simp [fetchCitiesStep, hlen]
  · simp [fetchStreetsStep, hlen]

/-- C8, instantiated: the one-character query `"a"` short-circuits both
lookups. -/
theorem claim_C8_witness :
    fetchCitiesStep "a" = CitiesStep.emptyResult ∧
    fetchStreetsStep "a" "5000" = StreetsStep.emptyResult :=
  ⟨(claim_C8 "a" (by decide)).1, (claim_C8 "a" (by decide)).2 "5000"⟩

theorem mainMarkIssuesAux_length (l : List PhoneEntry) : ∀ k : Nat,
    (mainMarkIssuesAux k l).length = (l.filter fun p => p.isMain).length := by
  induction l with
  | nil => intro k; rfl
  | cons p ps ih =>
    intro k
    rw [mainMarkIssuesAux]
    by_cases hp : p.isMain = true
    · simp [hp, List.filter_cons, ih (k + 1)]
    · simp only [Bool.not_eq_true] at hp
      simp [hp, List.filter_cons, ih (k + 1)]

theorem mainMarkIssuesAux_mem (l : List PhoneEntry) : ∀ (k : Nat) (iss : Issue),
    iss ∈ mainMarkIssuesAux k l ↔
      ∃ j p, l.get? j = some p ∧ p.isMain = true ∧
        iss = ⟨[PathSeg.idx (k + j), PathSeg.key "isMain"], "Only one phone can be main."⟩ := by
  induction l with
  | nil => intro k iss; simp [mainMarkIssuesAux]
  | cons p ps ih =>
    intro k iss
    rw [mainMarkIssuesAux]
    by_cases hp : p.isMain = true
    · rw [if_pos hp]
      simp only [List.mem_append, List.mem_singleton, ih (k + 1)]
      constructor
      · rintro (rfl | ⟨j, q, hj, hq, rfl⟩)
        · exact ⟨0, p, rfl, hp, by simp⟩
        · refine ⟨j + 1, q, by simpa using hj, hq, ?_⟩
          have harith : k + 1 + j = k + (j + 1) := by omega
          rw [harith]
      · rintro ⟨j, q, hj, hq, rfl⟩
        cases j with
        | zero =>
          left
          simp
        | succ j =>
          right
          refine ⟨j, q, by simpa using hj, hq, ?_⟩
          have harith : k + 1 + j = k + (j + 1) := by omega
          rw [harith]
    · rw [if_neg (by simpa using hp)]
      simp only [Bool.not_eq_true] at hp
      simp only [List.nil_append, ih (k + 1)]
      constructor
      · rintro ⟨j, q, hj, hq, rfl⟩
        refine ⟨j + 1, q, by simpa using hj, hq, ?_⟩
        have harith : k + 1 + j = k + (j + 1) := by omega
        rw [harith]
      · rintro ⟨j, q, hj, hq, rfl⟩
        cases j with
        | zero =>
          injection hj with hj
          rw [hj] at hp
          rw [hp] at hq
          cases hq
        | succ j =>
          refine ⟨j, q, by simpa using hj, hq, ?_⟩
          have harith : k + 1 + j = k + (j + 1) := by omega
          rw [harith]

/-- C3: the main-phone cross-field rule — zero main-marked entries yield
exactly the one array-root error; exactly one main-marked entry yields no
error; `n ≥ 2` main-marked entries yield exactly `n` errors, each attached
to (and only to) a main-marked entry's `isMain` path. -/
theorem claim_C3 (phones : List PhoneEntry) :
    ((phones.filter fun p => p.isMain).length = 0 →
      mainPhoneIssues phones = [⟨[], "One phone number must be marked as main."⟩]) ∧
    ((phones.filter fun p => p.isMain).length = 1 →
      mainPhoneIssues phones = []) ∧
    (2 ≤ (phones.filter fun p => p.isMain).length →
      (mainPhoneIssues phones).length = (phones.filter fun p => p.isMain).length ∧
      (∀ iss ∈ mainPhoneIssues phones, ∃ i p, phones.get? i = some p ∧
        p.isMain = true ∧
        iss = ⟨[PathSeg.idx i, PathSeg.key "isMain"], "Only one phone can be main."⟩) ∧
      (∀ i p, phones.get? i = some p → p.isMain = true →
        (⟨[PathSeg.idx i, PathSeg.key "isMain"], "Only one phone can be main."⟩ : Issue)
          ∈ mainPhoneIssues phones)) := by
  refine ⟨fun h0 => ?_, fun h1 => ?_, fun h2 => ?_⟩
  · simp only [mainPhoneIssues]
    rw [if_pos h0]
  · simp only [mainPhoneIssues]
    rw [if_neg (by omega), if_neg (by omega)]
  · simp only [mainPhoneIssues]
    rw [if_neg (by omega), if_pos (by omega)]
    refine ⟨mainMarkIssuesAux_length phones 0, fun iss hmem => ?_, fun i p hget hp => ?_⟩
    · obtain ⟨j, q, hj, hq, rfl⟩ := (mainMarkIssuesAux_mem phones 0 iss).mp hmem
      exact ⟨j, q, hj, hq, by rw [Nat.zero_add]⟩
    · refine (mainMarkIssuesAux_mem phones 0 _).mpr ⟨i, p, hget, hp, by rw [Nat.zero_add]⟩

/-- C3, instantiated: two unmarked entries give the single root error, two
main-marked entries give two entry-level errors. -/
theorem claim_C3_witness :
    mainPhoneIssues demoNoMain = [⟨[], "One phone number must be marked as main."⟩] ∧
    (mainPhoneIssues demoTwoMain).length = 2 :=
  ⟨(claim_C3 demoNoMain).1 (by decide),
   ((claim_C3 demoTwoMain).2.2 (by decide)).1.trans (by decide)⟩

theorem validateEntriesAux_cons {α β : Type} (f : List PathSeg → α → List Issue × β)
    (base : List PathSeg) (k : Nat) (x : α) (xs : List α) :
    validateEntriesAux f base k (x :: xs) =
      ((f (base ++ [PathSeg.idx k]) x).1 ++ (validateEntriesAux f base (k + 1) xs).1,
       (f (base ++ [PathSeg.idx k]) x).2 :: (validateEntriesAux f base (k + 1) xs).2) := rfl

theorem validatePhoneNumbers_eq (phones : List RawPhone) :
    validatePhoneNumbers phones =
      ((if phones.length < 1 then
          [⟨phonesBase, "At least one phone number is required"⟩] else []) ++
        (validateEntriesAux validatePhoneEntry phonesBase 0 phones).1 ++
        (mainPhoneIssues (validateEntriesAux validatePhoneEntry phonesBase 0 phones).2).map
          (fun iss => ⟨phonesBase ++ iss.path, iss.message⟩),
       (validateEntriesAux validatePhoneEntry phonesBase 0 phones).2) := rfl

theorem validateAddresses_eq (addrs : List RawAddress) :
    validateAddresses addrs =
      ((if addrs.length < 1 then
          [⟨addressesBase, "At least one address is required"⟩] else []) ++
        (validateEntriesAux validateAddressEntry addressesBase 0 addrs).1,
       (validateEntriesAux validateAddressEntry addressesBase 0 addrs).2) := rfl

theorem validatePatient_eq (r : RawPatient) :
    validatePatient r =
      (validateId r.id ++
        (validateName [PathSeg.key "firstName"] "First name is required" r.firstName).1 ++
        (validateName [PathSeg.key "lastName"] "Last name is required" r.lastName).1 ++
        (validatePhoneNumbers r.phoneNumbers).1 ++
        (validateAddresses r.addresses).1,
       if (validateId r.id ++
            (validateName [PathSeg.key "firstName"] "First name is required" r.firstName).1 ++
            (validateName [PathSeg.key "lastName"] "Last name is required" r.lastName).1 ++
            (validatePhoneNumbers r.phoneNumbers).1 ++
            (validateAddresses r.addresses).1).isEmpty then
         some ⟨r.id,
           (validateName [PathSeg.key "firstName"] "First name is required" r.firstName).2,
           (validateName [PathSeg.key "lastName"] "Last name is required" r.lastName).2,
           (validatePhoneNumbers r.phoneNumbers).2, r.hmo,
           (validateAddresses r.addresses).2⟩
       else none) := rfl

theorem ifIsEmpty_isSome {α : Type} (l : List Issue) (x : α) :
    (if l.isEmpty then some x else none).isSome ↔ l = [] := by
  cases l <;> simp

theorem validateEntriesAux_mem {α β : Type} (f : List PathSeg → α → List Issue × β)
    (base : List PathSeg) (xs : List α) : ∀ (k i : Nat) (x : α) (iss : Issue),
    xs.get? i = some x → iss ∈ (f (base ++ [PathSeg.idx (k + i)]) x).1 →
    iss ∈ (validateEntriesAux f base k xs).1 := by
  induction xs with
  | nil => intro k i x iss h; cases h
  | cons y ys ih =>
    intro k i x iss hget hmem
    rw [validateEntriesAux_cons]
    refine List.mem_append.mpr ?_
    cases i with
    | zero =>
      injection hget with hy
      subst hy
      exact Or.inl (by simpa using hmem)
    | succ i =>
      refine Or.inr (ih (k + 1) i x iss (by simpa using hget) ?_)
      have harith : k + 1 + i = k + (i + 1) := by omega
      rw [harith]
      exact hmem

/-- C6: a record with an empty phone list gets the phone-collection
min-length error, a record with an empty address list gets the
address-collection min-length error, and in both cases — whatever the other
fields hold — the record is rejected. -/
theorem claim_C6 (r : RawPatient) :
    (r.phoneNumbers = [] →
      (⟨[PathSeg.key "phoneNumbers"], "At least one phone number is required"⟩ : Issue)
        ∈ (validatePatient r).1 ∧ (validatePatient r).2 = none) ∧
    (r.addresses = [] →
      (⟨[PathSeg.key "addresses"], "At least one address is required"⟩ : Issue)
        ∈ (validatePatient r).1 ∧ (validatePatient r).2 = none) := by
  constructor
  · intro hph
    have hmem : (⟨[PathSeg.key "phoneNumbers"],
        "At least one phone number is required"⟩ : Issue)
        ∈ (validatePhoneNumbers r.phoneNumbers).1 := by
      rw [hph]
      decide
    have hmem2 : (⟨[PathSeg.key "phoneNumbers"],
        "At least one phone number is required"⟩ : Issue) ∈ (validatePatient r).1 := by
      rw [validatePatient_eq]
      exact List.mem_append.mpr (Or.inl (List.mem_append.mpr (Or.inr hmem)))
    refine ⟨hmem2, ?_⟩
    rw [validatePatient_eq]
    have hne : (validatePatient r).1 ≠ [] := by
      intro hnil
      rw [hnil] at hmem2
      cases hmem2
    rw [validatePatient_eq] at hne
    simp only [ne_eq, ← List.isEmpty_iff] at hne
    simp only [Bool.not_eq_true] at hne
    rw [hne]
    rfl
  · intro had
    have hmem : (⟨[PathSeg.key "addresses"],
        "At least one address is required"⟩ : Issue)
        ∈ (validateAddresses r.addresses).1 := by
      rw [had]
      decide
    have hmem2 : (⟨[PathSeg.key "addresses"],
        "At least one address is required"⟩ : Issue) ∈ (validatePatient r).1 := by
      rw [validatePatient_eq]
      exact List.mem_append.mpr (Or.inr hmem)
    refine ⟨hmem2, ?_⟩
    rw [validatePatient_eq]
    have hne : (validatePatient r).1 ≠ [] := by
      intro hnil
      rw [hnil] at hmem2
      cases hmem2
    rw [validatePatient_eq] at hne
    simp only [ne_eq, ← List.isEmpty_iff] at hne
    simp only [Bool.not_eq_true] at hne
    rw [hne]
    rfl

/-- C6, instantiated: emptying either collection of an otherwise fully
valid record produces the corresponding min-length error and rejection. -/
theorem claim_C6_witness :
    (⟨[PathSeg.key "phoneNumbers"], "At least one phone number is required"⟩ : Issue)
      ∈ (validatePatient demoNoPhones).1 ∧
    (validatePatient demoNoPhones).2 = none ∧
    (⟨[PathSeg.key "addresses"], "At least one address is required"⟩ : Issue)
      ∈ (validatePatient demoNoAddresses).1 ∧
    (validatePatient demoNoAddresses).2 = none :=
  ⟨((claim_C6 demoNoPhones).1 rfl).1, ((claim_C6 demoNoPhones).1 rfl).2,
   ((claim_C6 demoNoAddresses).2 rfl).1, ((claim_C6 demoNoAddresses).2 rfl).2⟩

/-- C4: validation is total and returns its verdict as data — the parse
succeeds exactly when the collected issue list is empty — and errors are
collected, not short-circuited: an invalid id, every invalid phone number
(by entry index) and every non-numeric street number (by entry index)
each contribute an issue at their own structural path, simultaneously. -/
theorem claim_C4 (r : RawPatient) :
    ((validatePatient r).2.isSome ↔ (validatePatient r).1 = []) ∧
    (isValidIsraeliId r.id = false →
      (⟨[PathSeg.key "id"], "Invalid Israeli ID number"⟩ : Issue)
        ∈ (validatePatient r).1) ∧
    (∀ i p, r.phoneNumbers.get? i = some p →
      isValidIsraeliPhoneNumber p.number = false →
      (⟨[PathSeg.key "phoneNumbers", PathSeg.idx i, PathSeg.key "number"],
        "Invalid Israeli phone number format"⟩ : Issue) ∈ (validatePatient r).1) ∧
    (∀ j a, r.addresses.get? j = some a →
      coerceNumber a.streetNumber = JsNumber.nan →
      (⟨[PathSeg.key "addresses", PathSeg.idx j, PathSeg.key "streetNumber"],
        "Street number must be a number"⟩ : Issue) ∈ (validatePatient r).1) := by
  refine ⟨?_, fun hid => ?_, fun i p hget hv => ?_, fun j a hget hnan => ?_⟩
  · rw [validatePatient_eq]
    exact ifIsEmpty_isSome _ _
  · have hmem : (⟨[PathSeg.key "id"], "Invalid Israeli ID number"⟩ : Issue)
        ∈ validateId r.id := by
      simp [validateId, hid]
    rw [validatePatient_eq]
    exact List.mem_append.mpr (Or.inl (List.mem_append.mpr (Or.inl
      (List.mem_append.mpr (Or.inl (List.mem_append.mpr (Or.inl hmem)))))))
  · have hmem : (⟨[PathSeg.key "phoneNumbers", PathSeg.idx i, PathSeg.key "number"],
        "Invalid Israeli phone number format"⟩ : Issue)
        ∈ (validatePhoneEntry (phonesBase ++ [PathSeg.idx (0 + i)]) p).1 := by
      simp [validatePhoneEntry, hv, phonesBase]
    have hmem2 := validateEntriesAux_mem validatePhoneEntry phonesBase
      r.phoneNumbers 0 i p _ hget hmem
    rw [validatePatient_eq, validatePhoneNumbers_eq]
    exact List.mem_append.mpr (Or.inl (List.mem_append.mpr (Or.inr
      (List.mem_append.mpr (Or.inl (List.mem_append.mpr (Or.inr hmem2)))))))
  · have hmem : (⟨[PathSeg.key "addresses", PathSeg.idx j, PathSeg.key "streetNumber"],
        "Street number must be a number"⟩ : Issue)
        ∈ (validateAddressEntry (addressesBase ++ [PathSeg.idx (0 + j)]) a).1 := by
      simp [validateAddressEntry, validateStreetNumber, numberChecks, hnan,
        addressesBase, requiredString, List.mem_append]
    have hmem2 := validateEntriesAux_mem validateAddressEntry addressesBase
      r.addresses 0 j a _ hget hmem
    rw [validatePatient_eq, validateAddresses_eq]
    exact List.mem_append.mpr (Or.inr (List.mem_append.mpr (Or.inr hmem2)))

/-- C4, instantiated: `demoBad` has an invalid id, an invalid phone number
at index 1 and a non-numeric street number at address index 0, and all
three issues are present at once. -/
theorem claim_C4_witness :
    (⟨[PathSeg.key "id"], "Invalid Israeli ID number"⟩ : Issue)
      ∈ (validatePatient demoBad).1 ∧
    (⟨[PathSeg.key "phoneNumbers", PathSeg.idx 1, PathSeg.key "number"],
      "Invalid Israeli phone number format"⟩ : Issue) ∈ (validatePatient demoBad).1 ∧
    (⟨[PathSeg.key "addresses", PathSeg.idx 0, PathSeg.key "streetNumber"],
      "Street number must be a number"⟩ : Issue) ∈ (validatePatient demoBad).1 :=
  ⟨(claim_C4 demoBad).2.1 (by decide),
   (claim_C4 demoBad).2.2.1 1 ⟨.Home, "12345", none⟩ rfl (by decide),
   (claim_C4 demoBad).2.2.2 0 ⟨"5000", "Tel Aviv", "100", "Main", .str "abc", .Home, none⟩
     rfl (by decide)⟩

theorem char_digit_bounds (c : Char) (h : c.isDigit = true) :
    48 ≤ c.toNat ∧ c.toNat ≤ 57 := by
  simp only [Char.isDigit, Bool.and_eq_true, decide_eq_true_eq] at h
  exact h

theorem digitVal_lt_ten (c : Char) (h : c.isDigit = true) : digitVal c < 10 := by
  obtain ⟨h1, h2⟩ := char_digit_bounds c h
  unfold digitVal
  omega

theorem digitVal_inj (c1 c2 : Char) (h1 : c1.isDigit = true)
    (h2 : c2.isDigit = true) (h : digitVal c1 = digitVal c2) : c1 = c2 := by
  obtain ⟨hb1, hb2⟩ := char_digit_bounds c1 h1
  obtain ⟨hb3, hb4⟩ := char_digit_bounds c2 h2
  unfold digitVal at h
  apply Char.ext
  apply UInt32.ext
  show c1.toNat = c2.toNat
  omega

theorem getD_map_digitVal (l : List Char) : ∀ i : Nat,
    (l.map digitVal).getD i 0 = digitVal (l.getD i ' ') := by
  induction l with
  | nil =>
    intro i
    cases i <;> rfl
  | cons c cs ih =>
    intro i
    cases i with
    | zero => rfl
    | succ i => exact ih i

theorem all_isDigit_set (l : List Char) : ∀ (i : Nat) (c : Char),
    l.all Char.isDigit = true → c.isDigit = true →
    (l.set i c).all Char.isDigit = true := by
  induction l with
  | nil => intro i c h _; exact h
  | cons a as ih =>
    intro i c h hc
    rw [List.all_cons, Bool.and_eq_true] at h
    cases i with
    | zero =>
      rw [List.set_cons_zero, List.all_cons, hc, h.2]
      rfl
    | succ i =>
      rw [List.set_cons_succ, List.all_cons, h.1, ih i c h.2 hc]
      rfl

theorem checksumAux_set (ds : List Nat) : ∀ (i k d : Nat), i < ds.length →
    checksumAux k (ds.set i d) + luhnStep (k + i) (ds.getD i 0) =
      checksumAux k ds + luhnStep (k + i) d := by
  induction ds with
  | nil => intro i k d h; exact absurd h (Nat.not_lt_zero i)
  | cons e es ih =>
    intro i k d h
    cases i with
    | zero =>
      rw [List.set_cons_zero, List.getD_cons_zero, Nat.add_zero]
      show luhnStep k d + checksumAux (k + 1) es + luhnStep k e =
        luhnStep k e + checksumAux (k + 1) es + luhnStep k d
      omega
    | succ i =>
      rw [List.set_cons_succ, List.getD_cons_succ]
      show luhnStep k e + checksumAux (k + 1) (es.set i d) + luhnStep (k + (i + 1)) (es.getD i 0) =
        luhnStep k e + checksumAux (k + 1) es + luhnStep (k + (i + 1)) d
      have harith : k + (i + 1) = (k + 1) + i := by omega
      rw [harith]
      have := ih i (k + 1) d (by simpa using h)
      omega

theorem luhn_fin_inj : ∀ (m : Fin 2) (d0 d1 : Fin 10), d0 ≠ d1 →
    luhnStep m.val d0.val % 10 ≠ luhnStep m.val d1.val % 10 := by
  decide

theorem luhnStep_mod_two (i d : Nat) : luhnStep i d = luhnStep (i % 2) d := by
  have h : i % 2 % 2 = i % 2 := by omega
  simp [luhnStep, h]

theorem luhn_inj (i d0 d1 : Nat) (h0 : d0 < 10) (h1 : d1 < 10) (hne : d0 ≠ d1) :
    luhnStep i d0 % 10 ≠ luhnStep i d1 % 10 := by
  rw [luhnStep_mod_two i d0, luhnStep_mod_two i d1]
  have hm : i % 2 < 2 := by omega
  have := luhn_fin_inj ⟨i % 2, hm⟩ ⟨d0, h0⟩ ⟨d1, h1⟩ (by simpa [Fin.ext_iff] using hne)
  simpa using this

/-- C5: mutating any single digit of a checksum-valid identifier — replacing
the digit at any position `i < 9` by a different digit — always yields a
string rejected by `isValidIsraeliId`. -/
theorem claim_C5 (id : String) (h : isValidIsraeliId id = true) (i : Nat)
    (hi : i < 9) (c : Char) (hc : c.isDigit = true)
    (hne : c ≠ id.data.getD i ' ') :
    isValidIsraeliId (String.mk (id.data.set i c)) = false := by
  obtain ⟨hlen, hdig, hsum⟩ := (isValidIsraeliId_iff id).mp h
  rw [Bool.eq_false_iff]
  intro hmut
  obtain ⟨-, -, hsum2⟩ := (isValidIsraeliId_iff _).mp hmut
  have hilen : i < id.data.length := by omega
  have hd0 : (id.data.getD i ' ').isDigit = true := by
    rw [List.getD_eq_getElem id.data ' ' hilen]
    exact List.all_eq_true.mp hdig _ (List.getElem_mem hilen)
  have hmap : (String.mk (id.data.set i c)).data.map digitVal =
      (id.data.map digitVal).set i (digitVal c) := by
    show (id.data.set i c).map digitVal = (id.data.map digitVal).set i (digitVal c)
    rw [List.map_set]
  rw [hmap] at hsum2
  have hset := checksumAux_set (id.data.map digitVal) i 0 (digitVal c)
    (by rw [List.length_map]; omega)
  rw [getD_map_digitVal id.data i, Nat.zero_add] at hset
  have hmod : luhnStep i (digitVal (id.data.getD i ' ')) % 10 =
      luhnStep i (digitVal c) % 10 := by
    have hS : checksum (id.data.map digitVal) % 10 = 0 := hsum
    have hS2 : checksumAux 0 ((id.data.map digitVal).set i (digitVal c)) % 10 = 0 := hsum2
    rw [checksum] at hS
    omega
  refine luhn_inj i (digitVal (id.data.getD i ' ')) (digitVal c)
    (digitVal_lt_ten _ hd0) (digitVal_lt_ten c hc) ?_ hmod
  intro heq
  exact hne (digitVal_inj c (id.data.getD i ' ') hc hd0 heq.symm)

/-- C5, instantiated: changing the leading digit of the valid `"000000018"`
to `1` produces a rejected string. -/
theorem claim_C5_witness :
    isValidIsraeliId (String.mk (String.data "000000018" |>.set 0 '1')) = false :=
  claim_C5 "000000018" (by decide) 0 (by decide) '1' (by decide) (by decide)

theorem trimStr_idem (s : String) : trimStr (trimStr s) = trimStr s := by
  show String.mk (trimChars (trimChars s.data)) = String.mk (trimChars s.data)
  rw [trimChars_idem]

theorem validateName_roundtrip (base : List PathSeg) (msg s t : String)
    (h : validateName base msg s = ([], t)) :
    validateName base msg t = ([], t) := by
  unfold validateName at h ⊢
  obtain ⟨h1, h2⟩ := Prod.ext_iff.mp h
  simp only at h1 h2
  rw [← h2, trimStr_idem]
  by_cases hemp : (trimStr s).data.isEmpty = true
  · rw [if_pos hemp] at h1
    cases h1
  · rw [if_neg hemp]

theorem validatePhoneEntry_roundtrip (base : List PathSeg) (x : RawPhone)
    (v : PhoneEntry) (h : validatePhoneEntry base x = ([], v)) :
    validatePhoneEntry base (rawOfPhone v) = ([], v) := by
  unfold validatePhoneEntry at h ⊢
  obtain ⟨h1, h2⟩ := Prod.ext_iff.mp h
  simp only at h1 h2
  obtain ⟨hmin, href⟩ := List.append_eq_nil.mp h1
  subst h2
  simp only [rawOfPhone, Option.getD_some]
  rw [hmin, href]
  rfl

theorem validateEntriesAux_length {α β : Type} (f : List PathSeg → α → List Issue × β)
    (base : List PathSeg) : ∀ (k : Nat) (xs : List α),
    ((validateEntriesAux f base k xs).2).length = xs.length := by
  intro k xs
  induction xs generalizing k with
  | nil => rfl
  | cons x xs ih =>
    rw [validateEntriesAux_cons]
    simp [ih (k + 1)]

theorem validateEntriesAux_roundtrip {α β : Type} (f : List PathSeg → α → List Issue × β)
    (g : β → α) (hf : ∀ b x v, f b x = ([], v) → f b (g v) = ([], v))
    (base : List PathSeg) : ∀ (k : Nat) (xs : List α) (vs : List β),
    validateEntriesAux f base k xs = ([], vs) →
    validateEntriesAux f base k (vs.map g) = ([], vs) := by
  intro k xs
  induction xs generalizing k with
  | nil =>
    intro vs h
    obtain ⟨-, h2⟩ := Prod.ext_iff.mp h
    simp only at h2
    rw [← h2]
    rfl
  | cons x xs ih =>
    intro vs h
    rw [validateEntriesAux_cons] at h
    obtain ⟨h1, h2⟩ := Prod.ext_iff.mp h
    simp only at h1 h2
    obtain ⟨hx, hxs⟩ := List.append_eq_nil.mp h1
    rw [← h2]
    simp only [List.map_cons]
    rw [validateEntriesAux_cons]
    have hx2 : f (base ++ [PathSeg.idx k]) x = ([], (f (base ++ [PathSeg.idx k]) x).2) :=
      Prod.ext_iff.mpr ⟨hx, rfl⟩
    have hxs2 : validateEntriesAux f base (k + 1) xs =
        ([], (validateEntriesAux f base (k + 1) xs).2) :=
      Prod.ext_iff.mpr ⟨hxs, rfl⟩
    rw [hf _ _ _ hx2, ih (k + 1) _ hxs2]
    rfl

theorem mainPhoneIssues_of_map_nil (phones : List PhoneEntry)
    (h : (mainPhoneIssues phones).map
      (fun iss => (⟨phonesBase ++ iss.path, iss.message⟩ : Issue)) = []) :
    mainPhoneIssues phones = [] :=
  List.map_eq_nil_iff.mp h

theorem validatePhoneNumbers_roundtrip (xs : List RawPhone) (vs : List PhoneEntry)
    (h : validatePhoneNumbers xs = ([], vs)) :
    validatePhoneNumbers (vs.map rawOfPhone) = ([], vs) := by
  rw [validatePhoneNumbers_eq] at h
  obtain ⟨h1, h2⟩ := Prod.ext_iff.mp h
  simp only at h1 h2
  obtain ⟨h12, hrefine⟩ := List.append_eq_nil.mp h1
  obtain ⟨hmin, helem⟩ := List.append_eq_nil.mp h12
  have hxs_len : 1 ≤ xs.length := by
    by_contra hlt
    rw [if_pos (by omega)] at hmin
    cases hmin
  have hvs_len : vs.length = xs.length := by
    rw [← h2]
    exact validateEntriesAux_length validatePhoneEntry phonesBase 0 xs
  have helem2 : validateEntriesAux validatePhoneEntry phonesBase 0 xs = ([], vs) :=
    Prod.ext_iff.mpr ⟨helem, h2⟩
  have hmain : mainPhoneIssues vs = [] := by
    refine mainPhoneIssues_of_map_nil vs ?_
    rw [← h2]
    exact hrefine
  rw [validatePhoneNumbers_eq]
  have hentries := validateEntriesAux_roundtrip validatePhoneEntry rawOfPhone
    validatePhoneEntry_roundtrip phonesBase 0 xs vs helem2
  rw [hentries]
  simp only [List.length_map]
  rw [if_neg (by omega), hmain]
  rfl

theorem validateStreetNumber_roundtrip (path : List PathSeg) (raw : RawNumber)
    (v : Frac) (h : validateStreetNumber path raw = ([], v)) :
    validateStreetNumber path (RawNumber.num v) = ([], v) := by
  unfold validateStreetNumber at h ⊢
  rcases hcn : coerceNumber raw with w | -
  all_goals rw [hcn] at h
  · simp only [numberChecks] at h
    obtain ⟨h1, h2⟩ := Prod.ext_iff.mp h
    simp only at h1 h2
    subst h2
    obtain ⟨h12, hmin⟩ := List.append_eq_nil.mp h1
    obtain ⟨hint, hpos⟩ := List.append_eq_nil.mp h12
    simp only [coerceNumber, numberChecks]
    rw [hint, hpos, hmin]
    rfl
  · simp only [numberChecks] at h
    obtain ⟨h1, -⟩ := Prod.ext_iff.mp h
    simp only at h1
    cases h1

theorem validateAddressEntry_roundtrip (base : List PathSeg) (x : RawAddress)
    (v : AddressEntry) (h : validateAddressEntry base x = ([], v)) :
    validateAddressEntry base (rawOfAddress v) = ([], v) := by
  unfold validateAddressEntry at h ⊢
  obtain ⟨h1, h2⟩ := Prod.ext_iff.mp h
  simp only at h1 h2
  obtain ⟨h15, hcom⟩ := List.append_eq_nil.mp h1
  obtain ⟨h14, hsn⟩ := List.append_eq_nil.mp h15
  obtain ⟨h13, hsname⟩ := List.append_eq_nil.mp h14
  obtain ⟨h12, hscode⟩ := List.append_eq_nil.mp h13
  obtain ⟨hccode, hcname⟩ := List.append_eq_nil.mp h12
  have hsn2 := validateStreetNumber_roundtrip (base ++ [PathSeg.key "streetNumber"])
    x.streetNumber _ (Prod.ext_iff.mpr ⟨hsn, rfl⟩)
  subst h2
  simp only [rawOfAddress]
  rw [hccode, hcname, hscode, hsname, hsn2, hcom]
  rfl

theorem validateAddresses_roundtrip (xs : List RawAddress) (vs : List AddressEntry)
    (h : validateAddresses xs = ([], vs)) :
    validateAddresses (vs.map rawOfAddress) = ([], vs) := by
  rw [validateAddresses_eq] at h
  obtain ⟨h1, h2⟩ := Prod.ext_iff.mp h
  simp only at h1 h2
  obtain ⟨hmin, helem⟩ := List.append_eq_nil.mp h1
  have hxs_len : 1 ≤ xs.length := by
    by_contra hlt
    rw [if_pos (by omega)] at hmin
    cases hmin
  have hvs_len : vs.length = xs.length := by
    rw [← h2]
    exact validateEntriesAux_length validateAddressEntry addressesBase 0 xs
  have helem2 : validateEntriesAux validateAddressEntry addressesBase 0 xs = ([], vs) :=
    Prod.ext_iff.mpr ⟨helem, h2⟩
  rw [validateAddresses_eq]
  have hentries := validateEntriesAux_roundtrip validateAddressEntry rawOfAddress
    validateAddressEntry_roundtrip addressesBase 0 xs vs helem2
  rw [hentries]
  simp only [List.length_map]
  rw [if_neg (by omega)]
  rfl

/-- C7: validation is idempotent on its own output — when a raw record
validates with zero errors to a normalized record (names trimmed, street
number coerced to a number, `isMain` defaulted), re-validating that
normalized record again yields zero errors and the very same record. -/
theorem claim_C7 (r : RawPatient) (p : Patient)
    (h : validatePatient r = ([], some p)) :
    validatePatient (rawOfPatient p) = ([], some p) := by
  rw [validatePatient_eq] at h
  obtain ⟨h1, h2⟩ := Prod.ext_iff.mp h
  simp only at h1 h2
  obtain ⟨h14, had⟩ := List.append_eq_nil.mp h1
  obtain ⟨h13, hph⟩ := List.append_eq_nil.mp h14
  obtain ⟨h12, hln⟩ := List.append_eq_nil.mp h13
  obtain ⟨hid, hfn⟩ := List.append_eq_nil.mp h12
  rw [h1] at h2
  simp only [List.isEmpty_nil, if_true, Option.some.injEq] at h2
  subst h2
  have hfn2 := validateName_roundtrip _ _ r.firstName _ (Prod.ext_iff.mpr ⟨hfn, rfl⟩)
  have hln2 := validateName_roundtrip _ _ r.lastName _ (Prod.ext_iff.mpr ⟨hln, rfl⟩)
  have hph2 := validatePhoneNumbers_roundtrip r.phoneNumbers _
    (Prod.ext_iff.mpr ⟨hph, rfl⟩)
  have had2 := validateAddresses_roundtrip r.addresses _
    (Prod.ext_iff.mpr ⟨had, rfl⟩)
  rw [validatePatient_eq]
  simp only [rawOfPatient]
  simp [hid, hfn2, hln2, hph2, had2]

/-- C7, instantiated: the normalized record of the fully valid `demoRaw`
revalidates to itself with zero errors. -/
theorem claim_C7_witness :
    validatePatient (rawOfPatient demoPatient) = ([], some demoPatient) :=
  claim_C7 demoRaw demoPatient (by decide)

end PatientApp
